import Mathlib

set_option maxRecDepth 100000

/-!
Verification of the iPXE binary-patching core of package `binary`:
the embedded asset registry (`Files`) and the marker patcher (`Patch`).

Bytes are modelled as `Nat` (Go `byte` values, all below 256 in practice),
byte slices as `List Nat`.  Go's `(result, error)` pair is modelled as
`Except PatchError (List Nat)`.
-/

/-- Bytes of an ASCII string literal: Go `[]byte(s)`. -/
def strBytes (s : String) : List Nat := s.toList.map Char.toNat

/-- The magic string included in each iPXE binary within the embedded script
(two 65-character lines joined by a newline). Source: `magicString` in the
`binary` package. -/
def magicString : List Nat :=
  strBytes "#a8b7e61f1075c37a793f2f92cee89f7bba00c4a8d7842ce3d40b5889032d8881\n#ddd16a4fc4926ecefdfb6941e33c44ed3647133638f5e84021ea44d3152e7f97"

/-- Go `bytes.Repeat([]byte{' '}, len(magicString))`: padding of spaces
(byte 32) the length of the magic string. -/
def magicStringPadding : List Nat := List.replicate magicString.length 32

/-- Go `bytes.HasPrefix s pat` - does `s` start with `pat`? Used to model
the search in `bytes.Index`. -/
def startsWith : List Nat → List Nat → Bool
  | _, [] => true
  | [], _ :: _ => false
  | c :: cs, p :: ps => c == p && startsWith cs ps

/-- Go `bytes.Index(content, pat)`: index of the first (leftmost) occurrence
of `pat` in `content`, `none` standing for Go's `-1`. -/
def bytesIndex (content pat : List Nat) : Option Nat :=
  match content with
  | [] => if startsWith [] pat then some 0 else none
  | c :: cs =>
    if startsWith (c :: cs) pat then some 0
    else (bytesIndex cs pat).map (· + 1)

/-- Go `copy(dst[i:], src)` performed on an (immutable-value) buffer `dst`:
overwrite the bytes of `dst` from position `i` on with the bytes of `src`,
truncating `src` at the end of `dst` (Go `copy` copies `min` of the two
lengths). -/
def copyAt (dst : List Nat) (i : Nat) (src : List Nat) : List Nat :=
  dst.take i ++ src.take (dst.length - i) ++ dst.drop (i + src.length)

/-- The single error kind of the patcher. -/
inductive PatchError where
  | patchTooLong
deriving DecidableEq

/-- Go `ErrPatchTooLong = errors.New("patch string is too long")`. -/
def ErrPatchTooLong : PatchError := PatchError.patchTooLong

/-- The `Patch` function of the `binary` package: replace the magic string in
the content with the patch.  Returns the original content when the patch is
empty or the magic string is not found, and an error when the patch is too
long.  The two `copyAt` calls model the two Go `copy` calls performed on the
freshly duplicated buffer `dup`. -/
def Patch (content patch : List Nat) : Except PatchError (List Nat) :=
  if patch.length = 0 then
    Except.ok content
  else
    match bytesIndex content magicString with
    | none => Except.ok content
    | some i =>
      if magicString.length < patch.length then
        Except.error ErrPatchTooLong
      else
        Except.ok (copyAt (copyAt content i magicStringPadding) i patch)

/-- The marker occurs in `content` at position `j`. -/
def occursAt (content pat : List Nat) (j : Nat) : Prop :=
  startsWith (content.drop j) pat = true

instance (content pat : List Nat) (j : Nat) : Decidable (occursAt content pat j) := by
  unfold occursAt
  exact inferInstance

/-- The contents of the seven embedded binaries (`go:embed` data, unknown at
this level; every field is an arbitrary byte list). -/
structure EmbeddedAssets where
  IpxeEFI : List Nat
  Undionly : List Nat
  SNP : List Nat
  IpxeISO : List Nat
  DTBRock5b : List Nat
  DTBOrangePi3b : List Nat
  DTBOdroidHC4 : List Nat

/-- The `Files` mapping of the `binary` package, from asset name to embedded
content, as an association list in source order. -/
def Files (a : EmbeddedAssets) : List (String × List Nat) :=
  [("undionly.kpxe", a.Undionly),
   ("ipxe.efi", a.IpxeEFI),
   ("snp.efi", a.SNP),
   ("ipxe.iso", a.IpxeISO),
   ("rk3588-rock-5b.dtb", a.DTBRock5b),
   ("rk3566-orangepi-3b.dtb", a.DTBOrangePi3b),
   ("meson-sm1-odroid-hc4.dtb", a.DTBOdroidHC4)]

/-- Map lookup on `Files`: Go `Files[name]`. -/
def filesLookup (a : EmbeddedAssets) (name : String) : Option (List Nat) :=
  ((Files a).find? fun p => p.fst == name).map Prod.snd

deriving instance DecidableEq for Except

/-- A 200-byte content with the magic string at offset 50: 50 bytes of
letter A, the marker (131 bytes), then 19 bytes of letter B. -/
def content200 : List Nat :=
  List.replicate 50 65 ++ magicString ++ List.replicate 19 66

theorem magicString_length : magicString.length = 131 := by decide

theorem startsWith_length :
    ∀ (s pat : List Nat), startsWith s pat = true → pat.length ≤ s.length
  | _, [], _ => Nat.zero_le _
  | [], _ :: _, h => by simp [startsWith] at h
  | c :: cs, p :: ps, h => by
    simp only [startsWith, Bool.and_eq_true] at h
    simpa using Nat.succ_le_succ (startsWith_length cs ps h.2)

theorem startsWith_iff_take :
    ∀ (s pat : List Nat), startsWith s pat = true ↔ s.take pat.length = pat
  | _, [] => by simp [startsWith]
  | [], _ :: _ => by simp [startsWith]
  | c :: cs, p :: ps => by
    simp only [startsWith, Bool.and_eq_true, beq_iff_eq, List.length_cons,
      List.take_succ_cons, List.cons.injEq]
    rw [startsWith_iff_take cs ps]

theorem bytesIndex_found :
    ∀ (s pat : List Nat) (i : Nat),
      bytesIndex s pat = some i → startsWith (s.drop i) pat = true
  | [], pat, i, h => by
    by_cases hp : startsWith [] pat = true <;>
      simp [bytesIndex, hp] at h
    simpa [List.drop_nil, h.symm] using hp
  | c :: cs, pat, i, h => by
    by_cases hp : startsWith (c :: cs) pat = true
    · simp [bytesIndex, hp] at h
      simpa [h.symm] using hp
    · simp [bytesIndex, hp] at h
      obtain ⟨j, hj, hij⟩ := h
      subst hij
      simpa using bytesIndex_found cs pat j hj

theorem bytesIndex_min :
    ∀ (s pat : List Nat) (i j : Nat),
      bytesIndex s pat = some i → startsWith (s.drop j) pat = true → i ≤ j
  | [], pat, i, j, h, _ => by
    by_cases hp : startsWith [] pat = true <;>
      simp [bytesIndex, hp] at h
    omega
  | c :: cs, pat, i, j, h, hj => by
    by_cases hp : startsWith (c :: cs) pat = true
    · simp [bytesIndex, hp] at h
      omega
    · simp [bytesIndex, hp] at h
      obtain ⟨i', hi', hii⟩ := h
      subst hii
      cases j with
      | zero => simp at hj; exact absurd hj hp
      | succ k =>
        have := bytesIndex_min cs pat i' k hi' (by simpa using hj)
        omega

theorem copyAt_eq (dst : List Nat) (i : Nat) (src : List Nat)
    (h : i + src.length ≤ dst.length) :
    copyAt dst i src = dst.take i ++ src ++ dst.drop (i + src.length) := by
  unfold copyAt
  rw [List.take_of_length_le (show src.length ≤ dst.length - i by omega)]

theorem patch_bound (C : List Nat) (i : Nat)
    (hfound : bytesIndex C magicString = some i) :
    i + magicString.length ≤ C.length := by
  have hocc := bytesIndex_found C magicString i hfound
  have hb := startsWith_length _ _ hocc
  rw [List.length_drop] at hb
  have hm : magicString.length = 131 := magicString_length
  omega

/-- The value produced by a successful, marker-found patch: content prefix,
payload, space padding up to the marker length, content suffix.  This is a
proof-level name for the buffer the two `copy` calls of `Patch` produce. -/
def patchedResult (C P : List Nat) (i : Nat) : List Nat :=
  C.take i ++ P ++ List.replicate (magicString.length - P.length) 32
    ++ C.drop (i + magicString.length)

theorem patch_found_eq (C P : List Nat) (i : Nat)
    (hP : ¬ P.length = 0)
    (hfound : bytesIndex C magicString = some i)
    (hlen : P.length ≤ magicString.length) :
    Patch C P = Except.ok (patchedResult C P i) := by
  unfold patchedResult
  have hi := patch_bound C i hfound
  have hpad : magicStringPadding.length = magicString.length := by
    simp [magicStringPadding]
  have htakelen : (C.take i).length = i := by
    rw [List.length_take]
    omega
  have hstep : Patch C P = Except.ok (copyAt (copyAt C i magicStringPadding) i P) := by
    simp only [Patch, if_neg hP, hfound]
    rw [if_neg (show ¬ magicString.length < P.length by omega)]
  rw [hstep, copyAt_eq C i magicStringPadding (by omega)]
  have hDlen :
      (C.take i ++ magicStringPadding ++ C.drop (i + magicStringPadding.length)).length
        = C.length := by
    simp only [List.length_append, htakelen, hpad, List.length_drop]
    omega
  rw [copyAt_eq _ i P (by rw [hDlen]; omega)]
  have h1 : (C.take i ++ magicStringPadding ++ C.drop (i + magicStringPadding.length)).take i
      = C.take i := by
    rw [List.append_assoc]
    exact List.take_left' htakelen
  have h2 : (C.take i ++ magicStringPadding ++ C.drop (i + magicStringPadding.length)).drop
      (i + P.length)
      = List.replicate (magicString.length - P.length) 32 ++ C.drop (i + magicString.length) := by
    rw [List.append_assoc]
    rw [show i + P.length = (C.take i).length + P.length by rw [htakelen]]
    rw [List.drop_append]
    rw [List.drop_append_of_le_length (show P.length ≤ magicStringPadding.length by omega)]
    rw [hpad]
    simp [magicStringPadding]
  rw [h1, h2]
  simp [List.append_assoc]

theorem patchedResult_length (C P : List Nat) (i : Nat)
    (hi : i + magicString.length ≤ C.length)
    (hlen : P.length ≤ magicString.length) :
    (patchedResult C P i).length = C.length := by
  simp only [patchedResult, List.length_append, List.length_take,
    List.length_replicate, List.length_drop]
  omega

theorem patchedResult_take (C P : List Nat) (i : Nat)
    (hi : i + magicString.length ≤ C.length) :
    (patchedResult C P i).take i = C.take i := by
  unfold patchedResult
  rw [List.append_assoc, List.append_assoc]
  exact List.take_left' (by rw [List.length_take]; omega)

theorem patchedResult_payload (C P : List Nat) (i : Nat)
    (hi : i + magicString.length ≤ C.length) :
    ((patchedResult C P i).drop i).take P.length = P := by
  unfold patchedResult
  rw [List.append_assoc, List.append_assoc]
  rw [List.drop_left' (by rw [List.length_take]; omega)]
  exact List.take_left' rfl

theorem patchedResult_padding (C P : List Nat) (i : Nat)
    (hi : i + magicString.length ≤ C.length) :
    ((patchedResult C P i).drop (i + P.length)).take (magicString.length - P.length)
      = List.replicate (magicString.length - P.length) 32 := by
  unfold patchedResult
  rw [List.append_assoc, List.append_assoc]
  rw [show i + P.length = (C.take i).length + P.length by rw [List.length_take]; omega]
  rw [List.drop_append]
  rw [List.drop_left' rfl]
  exact List.take_left' (List.length_replicate _ _)

theorem patchedResult_suffix (C P : List Nat) (i : Nat)
    (hi : i + magicString.length ≤ C.length)
    (hlen : P.length ≤ magicString.length) :
    (patchedResult C P i).drop (i + magicString.length)
      = C.drop (i + magicString.length) := by
  unfold patchedResult
  rw [List.append_assoc, List.append_assoc]
  rw [show i + magicString.length = (C.take i).length + magicString.length by
    rw [List.length_take]; omega]
  rw [List.drop_append]
  rw [← List.append_assoc]
  exact List.drop_left' (by simp [List.length_append, List.length_replicate]; omega)

theorem patch_too_long_eq (C P : List Nat) (i : Nat)
    (hfound : bytesIndex C magicString = some i)
    (hlen : magicString.length < P.length) :
    Patch C P = Except.error ErrPatchTooLong := by
  have hP : ¬ P.length = 0 := by have := magicString_length; omega
  simp only [Patch, if_neg hP, hfound]
  rw [if_pos hlen]

theorem patch_absent_eq (C P : List Nat)
    (habsent : bytesIndex C magicString = none)
    (hP : ¬ P.length = 0) :
    Patch C P = Except.ok C := by
  simp only [Patch, if_neg hP, habsent]

theorem occursAt_iff_take (C pat : List Nat) (j : Nat) :
    occursAt C pat j ↔ (C.drop j).take pat.length = pat :=
  startsWith_iff_take _ _

theorem marker_no_self_overlap :
    ∀ d : Fin 131, 0 < d.val →
      magicString.drop d.val ≠ magicString.take (131 - d.val) := by decide

/-- Claim C1, counterexample: the claim quantifies over every payload with
length at most the marker length, including the empty payload.  For content
equal to the magic string itself (marker at first offset 0) and the empty
payload, Patch returns the content unchanged, so the marker region of the
result is the marker itself and not all padding bytes, contradicting the
claimed padding property. -/
theorem claim1_counterexample :
    bytesIndex magicString magicString = some 0 ∧
    ([] : List Nat).length ≤ magicString.length ∧
    Patch magicString [] = Except.ok magicString ∧
    ¬ ((magicString.drop (0 + ([] : List Nat).length)).take
        (magicString.length - ([] : List Nat).length)
      = List.replicate (magicString.length - ([] : List Nat).length) 32) := by
  exact ⟨by decide, by decide, rfl, by decide⟩

/-- Claim C1 (amended with a non-empty payload): for content C containing the
marker at first offset i and a non-empty payload P with length at most the
marker length, Patch succeeds with a result R of the same length as C that
agrees with C before i, carries P on [i, i+|P|), space padding on
[i+|P|, i+|marker|), and agrees with C from i+|marker| on. -/
theorem claim1_patch_segments (C P : List Nat) (i : Nat)
    (hfound : bytesIndex C magicString = some i)
    (hP : P ≠ [])
    (hlen : P.length ≤ magicString.length) :
    ∃ R, Patch C P = Except.ok R ∧
      R.length = C.length ∧
      R.take i = C.take i ∧
      (R.drop i).take P.length = P ∧
      (R.drop (i + P.length)).take (magicString.length - P.length)
        = List.replicate (magicString.length - P.length) 32 ∧
      R.drop (i + magicString.length) = C.drop (i + magicString.length) := by
  have hP0 : ¬ P.length = 0 := by simpa [List.length_eq_zero] using hP
  have hi := patch_bound C i hfound
  exact ⟨patchedResult C P i, patch_found_eq C P i hP0 hfound hlen,
    patchedResult_length C P i hi hlen,
    patchedResult_take C P i hi,
    patchedResult_payload C P i hi,
    patchedResult_padding C P i hi,
    patchedResult_suffix C P i hi hlen⟩

/-- Claim C1 witness: the amended claim applied to the concrete 200-byte
content with the marker at offset 50 and the 5-byte payload "hello". -/
theorem claim1_patch_segments_witness :
    ∃ R, Patch content200 (strBytes "hello") = Except.ok R ∧
      R.length = content200.length ∧
      R.take 50 = content200.take 50 ∧
      (R.drop 50).take (strBytes "hello").length = strBytes "hello" ∧
      (R.drop (50 + (strBytes "hello").length)).take
          (magicString.length - (strBytes "hello").length)
        = List.replicate (magicString.length - (strBytes "hello").length) 32 ∧
      R.drop (50 + magicString.length) = content200.drop (50 + magicString.length) :=
  claim1_patch_segments content200 (strBytes "hello") 50
    (by decide) (by decide) (by decide)

/-- Claim C2: for content containing the marker and a payload strictly longer
than the marker, Patch fails with the PatchTooLong error and produces no
content (the error outcome carries no buffer). -/
theorem claim2_patch_too_long (C P : List Nat) (i : Nat)
    (hfound : bytesIndex C magicString = some i)
    (hlen : magicString.length < P.length) :
    Patch C P = Except.error ErrPatchTooLong :=
  patch_too_long_eq C P i hfound hlen

/-- Claim C2 witness: the 200-byte content with the marker at offset 50 and a
132-byte payload (one byte longer than the marker). -/
theorem claim2_patch_too_long_witness :
    Patch content200 (List.replicate 132 97) = Except.error ErrPatchTooLong :=
  claim2_patch_too_long content200 (List.replicate 132 97) 50
    (by decide) (by decide)

/-- Claim C3: for every content C, patching with the empty payload is a no-op
returning C itself. -/
theorem claim3_patch_empty_noop (C : List Nat) : Patch C [] = Except.ok C := rfl

/-- Claim C4: for content C not containing the marker and any non-empty
payload of length at most the marker length, Patch returns C unchanged. -/
theorem claim4_patch_no_marker (C P : List Nat)
    (habsent : bytesIndex C magicString = none)
    (hP : P ≠ [])
    (_hlen : P.length ≤ magicString.length) :
    Patch C P = Except.ok C := by
  have hP0 : ¬ P.length = 0 := by simpa [List.length_eq_zero] using hP
  exact patch_absent_eq C P habsent hP0

/-- Claim C4 witness: a two-byte content without the marker and a one-byte
payload pass through unchanged. -/
theorem claim4_patch_no_marker_witness :
    Patch [65, 66] [97] = Except.ok [65, 66] :=
  claim4_patch_no_marker [65, 66] [97] (by decide) (by decide) (by decide)

/-- Claim C6, counterexample: an overlength payload alone does not make Patch
fail.  With empty content (which does not contain the marker) and a 132-byte
payload longer than the 131-byte marker, Patch succeeds and returns the
content, so PatchTooLong is not signaled for every overlength payload. -/
theorem claim6_counterexample :
    magicString.length < (List.replicate 132 97).length ∧
    Patch [] (List.replicate 132 97) = Except.ok [] :=
  ⟨by decide, by decide⟩

/-- Claim C6 (amended): Patch fails - necessarily with PatchTooLong, the only
error of the patcher - exactly when the content contains the marker and the
payload is strictly longer than the marker; it never fails otherwise. -/
theorem claim6_patch_error_iff (C P : List Nat) :
    Patch C P = Except.error ErrPatchTooLong ↔
      (bytesIndex C magicString ≠ none ∧ magicString.length < P.length) := by
  constructor
  · intro h
    by_cases hP : P.length = 0
    · simp [Patch, hP] at h
    · cases hidx : bytesIndex C magicString with
      | none =>
        rw [patch_absent_eq C P hidx hP] at h
        cases h
      | some i =>
        by_cases hlen : magicString.length < P.length
        · exact ⟨by simp [hidx], hlen⟩
        · rw [patch_found_eq C P i hP hidx (by omega)] at h
          cases h
  · rintro ⟨hsome, hlen⟩
    cases hidx : bytesIndex C magicString with
    | none => exact absurd hidx hsome
    | some i => exact patch_too_long_eq C P i hidx hlen

/-- Claim C7, counterexample: the marker constant is 131 bytes (two 65-byte
lines joined by a newline), not 64 bytes, so on the 200-byte content with the
marker at offset 50 a payload of length 65 is NOT longer than the marker and
Patch succeeds instead of failing with PatchTooLong. -/
theorem claim7_counterexample :
    magicString.length ≠ 64 ∧
    bytesIndex content200 magicString = some 50 ∧
    (List.replicate 65 97).length = 65 ∧
    Patch content200 (List.replicate 65 97) ≠ Except.error ErrPatchTooLong := by
  exact ⟨by decide, by decide, by decide, by decide⟩

/-- Claim C7 (amended): the marker is 131 bytes, so on the 200-byte content
with the marker at offset 50 a payload of length 132 (one byte longer than
the marker) fails with PatchTooLong, while payload "hello" gives a 200-byte
result with "hello" at [50:55), spaces on [55:181), and all other bytes
unchanged. -/
theorem claim7_concrete :
    magicString.length = 131 ∧
    Patch content200 (List.replicate 132 97) = Except.error ErrPatchTooLong ∧
    (∃ R, Patch content200 (strBytes "hello") = Except.ok R ∧
      R.length = 200 ∧
      (R.drop 50).take 5 = strBytes "hello" ∧
      (R.drop 55).take 126 = List.replicate 126 32 ∧
      R.take 50 = content200.take 50 ∧
      R.drop 181 = content200.drop 181) := by
  refine ⟨by decide, by decide,
    ⟨List.replicate 50 65 ++ strBytes "hello" ++ List.replicate 126 32
      ++ List.replicate 19 66,
     by decide, by decide, by decide, by decide, by decide, by decide⟩⟩

/-- Claim C8: when the marker occurs in C both at the first offset i and at
some other offset j, a successful patch rewrites only the first occurrence:
the result still carries the marker at j. -/
theorem claim8_first_occurrence_only (C P : List Nat) (i j : Nat)
    (hfirst : bytesIndex C magicString = some i)
    (hj : occursAt C magicString j)
    (hne : j ≠ i)
    (hP : P ≠ [])
    (hlen : P.length ≤ magicString.length) :
    ∃ R, Patch C P = Except.ok R ∧ occursAt R magicString j := by
  have hP0 : ¬ P.length = 0 := by simpa [List.length_eq_zero] using hP
  have hi := patch_bound C i hfirst
  have hij : i ≤ j := bytesIndex_min C magicString i j hfirst hj
  refine ⟨patchedResult C P i, patch_found_eq C P i hP0 hfirst hlen, ?_⟩
  by_cases hcase : i + magicString.length ≤ j
  · rw [occursAt_iff_take] at hj ⊢
    have hdropR : (patchedResult C P i).drop j = C.drop j := by
      have e1 : (patchedResult C P i).drop j
          = ((patchedResult C P i).drop (i + magicString.length)).drop
              (j - (i + magicString.length)) := by
        rw [List.drop_drop]
        congr 1
        omega
      rw [e1, patchedResult_suffix C P i hi hlen, List.drop_drop]
      congr 1
      omega
    rw [hdropR]
    exact hj
  · exfalso
    have hocc := bytesIndex_found C magicString i hfirst
    rw [startsWith_iff_take] at hocc
    rw [occursAt_iff_take] at hj
    have hCdj : C.drop j = (C.drop i).drop (j - i) := by
      rw [List.drop_drop]
      congr 1
      omega
    rw [hCdj] at hj
    have h1 : magicString.drop (j - i)
        = ((C.drop i).drop (j - i)).take (magicString.length - (j - i)) := by
      conv_lhs => rw [← hocc]
      rw [List.drop_take]
    have h2 : ((C.drop i).drop (j - i)).take (magicString.length - (j - i))
        = magicString.take (magicString.length - (j - i)) := by
      conv_lhs =>
        rw [show magicString.length - (j - i)
          = min (magicString.length - (j - i)) magicString.length by omega]
      rw [← List.take_take, hj]
    have hdlt : j - i < 131 := by
      have := magicString_length
      omega
    have hdpos : 0 < j - i := by omega
    have h131 : magicString.drop (j - i) = magicString.take (131 - (j - i)) := by
      rw [← magicString_length]
      exact h1.trans h2
    exact marker_no_self_overlap ⟨j - i, hdlt⟩ hdpos h131

/-- Claim C8 witness: content made of the marker twice; patching with the
one-byte payload 104 leaves the second occurrence (offset 131) intact. -/
theorem claim8_first_occurrence_only_witness :
    ∃ R, Patch (magicString ++ magicString) [104] = Except.ok R ∧
      occursAt R magicString 131 :=
  claim8_first_occurrence_only (magicString ++ magicString) [104] 0 131
    (by decide) (by decide) (by decide) (by decide) (by decide)

/-- Claim C9: the registry holds exactly the seven fixed asset names - the
BIOS x86 loader, the UEFI x86 loader, the UEFI ARM loader, the ISO image and
three board device-tree blobs named board-id.dtb - and looking up each
registered name returns the content registered for it (the lookup is a pure
function of the registry, so every call returns the same bytes). -/
theorem claim9_registry (a : EmbeddedAssets) :
    (Files a).map Prod.fst =
      ["undionly.kpxe", "ipxe.efi", "snp.efi", "ipxe.iso",
       "rk3588-rock-5b.dtb", "rk3566-orangepi-3b.dtb", "meson-sm1-odroid-hc4.dtb"] ∧
    filesLookup a "undionly.kpxe" = some a.Undionly ∧
    filesLookup a "ipxe.efi" = some a.IpxeEFI ∧
    filesLookup a "snp.efi" = some a.SNP ∧
    filesLookup a "ipxe.iso" = some a.IpxeISO ∧
    filesLookup a "rk3588-rock-5b.dtb" = some a.DTBRock5b ∧
    filesLookup a "rk3566-orangepi-3b.dtb" = some a.DTBOrangePi3b ∧
    filesLookup a "meson-sm1-odroid-hc4.dtb" = some a.DTBOdroidHC4 :=
  ⟨rfl, rfl, rfl, rfl, rfl, rfl, rfl, rfl⟩

/-- Claim C10: whenever the marker search succeeds at index i, the whole
marker window lies inside the content (i + len(marker) ≤ len(content)), so
the padding write and the payload write stay in bounds, and every successful
patch returns a buffer of exactly the content's length. -/
theorem claim10_inbounds (C P R : List Nat) (i : Nat)
    (hfound : bytesIndex C magicString = some i)
    (hok : Patch C P = Except.ok R) :
    i + magicString.length ≤ C.length ∧ R.length = C.length := by
  refine ⟨patch_bound C i hfound, ?_⟩
  by_cases hP : P.length = 0
  · simp [Patch, hP] at hok
    rw [hok]
  · by_cases hlen : magicString.length < P.length
    · rw [patch_too_long_eq C P i hfound hlen] at hok
      cases hok
    · rw [patch_found_eq C P i hP hfound (by omega)] at hok
      have hR := Except.ok.inj hok
      rw [← hR]
      exact patchedResult_length C P i (patch_bound C i hfound) (by omega)

/-- Claim C10 witness: at the concrete 200-byte content with the marker at
offset 50 and payload "hello", the marker window ends at 181 ≤ 200 and the
result again has length 200. -/
theorem claim10_inbounds_witness :
    50 + magicString.length ≤ content200.length ∧
    (List.replicate 50 65 ++ strBytes "hello" ++ List.replicate 126 32
      ++ List.replicate 19 66).length = content200.length :=
  claim10_inbounds content200 (strBytes "hello")
    (List.replicate 50 65 ++ strBytes "hello" ++ List.replicate 126 32
      ++ List.replicate 19 66)
    50 (by decide) (by decide)
